import Mathlib

/-!
Verification of the template-evaluation extension layer (recovery/dispatch
subsystem) against its natural-language specification.

The Go source is shallowly embedded: bitmasks become `Nat` with explicit
bitwise operations, `reflect.Value` payloads become the inductive `Val`,
fallible operations return `Option`/pairs, and the mutable `*Context` is
threaded explicitly.  Regular-expression filters are modelled as pure
string predicates, following the spec's own design note that any
string-predicate abstraction suffices.
-/

namespace TemplateProof

/-- Runtime values flowing through the template engine
(`reflect.Value` / `interface{}` payloads). -/
inductive Val where
  | str : String → Val
  | num : Int → Val
  | boolv : Bool → Val
  | list : List Val → Val
  | errv : String → Val
  | nilv : Val

/-! ## Bitmask enumerations

`ContextSource` (src/context_source.go) and `MissingAction`
(src/missing_action.go) are byte-sized bitmasks; we embed them as `Nat`
with the constants from the source. -/

/-- `Field ContextSource = 1 << iota` (src/context_source.go line 10). -/
def ContextSource.Field : Nat := 1
/-- `Call` (src/context_source.go line 12). -/
def ContextSource.Call : Nat := 2
/-- `Print` (src/context_source.go line 14). -/
def ContextSource.Print : Nat := 4

/-- `func (s ContextSource) IsSet(value ContextSource) bool { return s|value != 0 }`
(src/context_source.go line 38).  Note the bitwise OR in the source. -/
def ContextSource.IsSet (s value : Nat) : Bool := s ||| value != 0

/-- `Invalid MissingAction = 1 << iota` (src/missing_action.go line 10). -/
def MissingAction.Invalid : Nat := 1
/-- `ZeroValue` (src/missing_action.go line 12). -/
def MissingAction.ZeroValue : Nat := 2
/-- `Error` (src/missing_action.go line 14). -/
def MissingAction.Error : Nat := 4

/-- `func (a MissingAction) IsSet(value MissingAction) bool { return a|value != 0 }`
(src/missing_action.go line 38).  Note the bitwise OR in the source. -/
def MissingAction.IsSet (a value : Nat) : Bool := a ||| value != 0

/-- Outcome of a recovery attempt (src/error_action.go lines 6-13). -/
inductive ErrorAction where
  | NoReplace : ErrorAction
  | ResultReplaced : ErrorAction
  | ResultAsArray : ErrorAction
deriving DecidableEq

/-! ## Evaluation context

The mutable `Context` (src/context.go lines 12-22).  The fields the
claims exercise are embedded; the failure is carried as its diagnostic
text (`Option String`, `none` = nil error), `reflect.Kind` of the
receiver as a `Nat` tag. -/

structure Context where
  source : Nat
  mode : Nat
  name : String
  receiverKind : Nat
  err : Option String
  result : Val

/-- `func (c context) SetResult(value reflect.Value) { *c.result = value }`
(src/context.go line 52). -/
def Context.SetResult (c : Context) (v : Val) : Context := { c with result := v }

/-- `func (c context) SetError(err error) { c.err = err }` (src/context.go line 51). -/
def Context.SetError (c : Context) (e : Option String) : Context := { c with err := e }

/-- `func (c context) ClearError() { c.SetError(nil) }` (src/context.go line 37). -/
def Context.ClearError (c : Context) : Context := c.SetError none

/-! ## ErrorManager and CanManage (claim C1)

`ErrorManager` (src/unnamed/part_007 lines 100-108): handler function,
source and mode bitmasks, member-name allow-list, receiver-kind
allow-list, and compiled regular-expression filters.  A compiled filter
is modelled as a string predicate. -/

structure ErrorManager where
  fn : Context → Context × Val × ErrorAction
  source : Nat
  mode : Nat
  members : List String
  kinds : List Nat
  filters : List (String → Bool)

/-- `ErrorManager.CanManage` as written at src/unnamed/part_007 lines 152-183
(the variant using the `IsSet` helpers):

    if em.source != 0 && !em.source.IsSet(context.source) ||
       em.mode != 0 && !em.mode.IsSet(context.Template().MissingMode()) { return false }
    members / kinds allow-lists checked by linear scan;
    if context.Error() != nil, any matching filter returns true;
    finally `return len(em.filters) == 0`. -/
def ErrorManager.CanManage (em : ErrorManager) (c : Context) : Bool :=
  if (em.source != 0 && !(ContextSource.IsSet em.source c.source))
      || (em.mode != 0 && !(MissingAction.IsSet em.mode c.mode)) then
    false
  else if !em.members.isEmpty && !(em.members.any (fun m => m == c.name)) then
    false
  else if !em.kinds.isEmpty && !(em.kinds.any (fun k => k == c.receiverKind)) then
    false
  else
    match c.err with
    | some text => if em.filters.any (fun re => re text) then true else em.filters.isEmpty
    | none => em.filters.isEmpty

/-- The sibling variant of `CanManage` at src/unnamed/part_007 lines 247-278,
which tests the masks with bitwise AND instead of the `IsSet` helpers:

    if em.source != 0 && context.Source()&em.source == 0 ||
       em.mode != 0 && mode&em.mode == 0 { return false } -/
def ErrorManager.CanManageAnd (em : ErrorManager) (c : Context) : Bool :=
  if (em.source != 0 && em.source &&& c.source == 0)
      || (em.mode != 0 && em.mode &&& c.mode == 0) then
    false
  else if !em.members.isEmpty && !(em.members.any (fun m => m == c.name)) then
    false
  else if !em.kinds.isEmpty && !(em.kinds.any (fun k => k == c.receiverKind)) then
    false
  else
    match c.err with
    | some text => if em.filters.any (fun re => re text) then true else em.filters.isEmpty
    | none => em.filters.isEmpty

/-! ## ErrorManager registry and tryRecover (claims C2, C7, C8)

`errorHandlers` (src/unnamed/part_001 lines 242-245): a map from group
name to manager list plus the sorted key list.  The Go map (unordered,
unique keys) is embedded as an association list. -/

structure errorHandlers where
  managers : List (String × List ErrorManager)
  keys : List String

/-- `c.key(key)` returns `c.handlers().managers[key]` (src/context.go line 60);
a missing key yields the nil slice. -/
def errorHandlers.lookup (r : errorHandlers) (key : String) : List ErrorManager :=
  match r.managers.find? (fun p => p.1 == key) with
  | some p => p.2
  | none => []

/-- Inner loop of the first `tryRecover` variant (src/context.go lines 172-185):
for each manager of one group, skip it when `CanManage` fails; otherwise run
the handler; on an action other than `NoReplace` write the value into the
result slot and record the action, returning early (`Bool` flag) only when
the context carries no error afterwards. -/
def scanManagersA : List ErrorManager → Context → ErrorAction → Context × ErrorAction × Bool
  | [], c, acc => (c, acc, false)
  | m :: rest, c, acc =>
    if m.CanManage c then
      match m.fn c with
      | (c1, value, action) =>
        if action ≠ ErrorAction.NoReplace then
          let c2 := c1.SetResult value
          if c2.err = none then (c2, action, true)
          else scanManagersA rest c2 action
        else scanManagersA rest c1 acc
    else scanManagersA rest c acc

/-- Outer loop of the first `tryRecover` variant: iterate the registry keys
in their stored (sorted) order. -/
def scanGroupsA : List String → errorHandlers → Context → ErrorAction → Context × ErrorAction
  | [], _, c, acc => (c, acc)
  | k :: ks, r, c, acc =>
    match scanManagersA (r.lookup k) c acc with
    | (c1, a1, true) => (c1, a1)
    | (c1, a1, false) => scanGroupsA ks r c1 a1

/-- Elements of a collection result.  Go's `reflect.Value.Len/Index` are only
applied to the collections handlers return with `ResultAsArray`. -/
def Val.asList : Val → List Val
  | .list xs => xs
  | _ => []

/-- `Context.tryRecover`, first variant (src/context.go lines 170-197).
`evalField` stands for `c.state.evalField(c.Dot(), c.MemberName(), c.Node(),
c.Args(), c.Final(), element)`, the executor hook re-applying the member
access to one element of the substituted collection. -/
def Context.tryRecoverA (r : errorHandlers) (evalField : Context → Val → Val)
    (c : Context) : Context × Option String :=
  let p := scanGroupsA r.keys r c ErrorAction.NoReplace
  let c2 := if p.2 = ErrorAction.ResultAsArray then
      p.1.SetResult (Val.list ((p.1.result.asList).map (fun elem => evalField p.1 elem)))
    else p.1
  (c2, c2.err)

/-- Inner loop of the second `tryRecover` variant (src/context.go lines
335-345): the first manager reporting an action other than `NoReplace` has
its value written into the result slot and the scan returns immediately. -/
def scanManagersB : List ErrorManager → Context → Context × ErrorAction × Bool
  | [], c => (c, ErrorAction.NoReplace, false)
  | m :: rest, c =>
    if m.CanManage c then
      match m.fn c with
      | (c1, value, action) =>
        if action ≠ ErrorAction.NoReplace then (c1.SetResult value, action, true)
        else scanManagersB rest c1
    else scanManagersB rest c

/-- Outer loop of the second `tryRecover` variant. -/
def scanGroupsB : List String → errorHandlers → Context → Context × ErrorAction
  | [], _, c => (c, ErrorAction.NoReplace)
  | k :: ks, r, c =>
    match scanManagersB (r.lookup k) c with
    | (c1, a1, true) => (c1, a1)
    | (c1, _, false) => scanGroupsB ks r c1

/-- `Context.tryRecover`, second variant (src/context.go lines 333-357). -/
def Context.tryRecoverB (r : errorHandlers) (evalField : Context → Val → Val)
    (c : Context) : Context × Option String :=
  let p := scanGroupsB r.keys r c
  let c2 := if p.2 = ErrorAction.ResultAsArray then
      p.1.SetResult (Val.list ((p.1.result.asList).map (fun elem => evalField p.1 elem)))
    else p.1
  (c2, c2.err)

/-! ## Return-shape normalization (claim C3) -/

/-- One slot of a callable's return list: its declared type may be the
error interface (`result[i].Type() == errorType`), and it holds a runtime
value (`Val.nilv` for a nil error interface). -/
structure RVal where
  typeIsError : Bool
  value : Val

/-- The type assertion `result[lenResult].Interface().(error)`: yields the
error when the runtime value is one, `nil` otherwise. -/
def Val.asErr : Val → Option String
  | .errv e => some e
  | _ => none

/-- `Context.convertResult` (src/context.go lines 148-168): no returned
values clear the error and yield `""`; a trailing error-typed slot is split
off into the context's error; the remaining values collapse to the single
value when exactly one remains, else to an ordered list. -/
def Context.convertResult (c : Context) (result : List RVal) : Context × Val :=
  match result.getLast? with
  | none => (c.ClearError, Val.str "")
  | some last =>
    let p : Context × List RVal :=
      if last.typeIsError then (c.SetError last.value.asErr, result.dropLast)
      else (c.ClearError, result)
    let array := p.2.map (fun rv => rv.value)
    match array with
    | [a] => (p.1, a)
    | _ => (p.1, Val.list array)

/-! ## Dynamic invocation adapter (claim C4)

`Context.callInternal` (src/context.go lines 98-146).  The callable's
declared shape is its parameter count and variadic flag; its dynamic
behaviour is the `call` field.  Argument expressions are opaque node ids
(`Nat`), evaluated through the executor hook `evalArg` (type-directed
coercion is folded into the hook, as the claim assumes types coerce). -/

structure GoCallable where
  numIn : Nat
  variadic : Bool
  call : List Val → List RVal

/-- Extra `Context` fields used by the adapter: the raw argument
expressions and the piped final argument (`none` = `missingVal`),
src/context.go lines 18-19. -/
structure CallContext extends Context where
  args : List Nat
  final : Option Val

/-- `Context.ArgCount` (src/context.go lines 91-96). -/
def CallContext.ArgCount (c : CallContext) : Nat :=
  match c.final with
  | some _ => c.args.length + 1
  | none => c.args.length

/-- The arity diagnostic `"wrong number of args for %s: want %d got %d"`
(src/context.go line 125); `want` is the Go int `typ.NumIn()-first`. -/
def arityErrorText (name : String) (want : Int) (got : Nat) : String :=
  "wrong number of args for " ++ name ++ ": want " ++ toString want ++ " got " ++ toString got

/-- `Context.callInternal` (src/context.go lines 98-146): prepend the
context itself when `injectSelf`; a self-injected callable declaring
exactly one parameter (and not variadic) is invoked directly; otherwise a
non-variadic callable whose declared count differs from the supplied
count plus the injected self gets the arity error written into the
context (returning Go `nil`); otherwise each positional slot evaluates
its argument expression, the trailing slot taking the piped final value,
and the call's results are normalized by `convertResult`. -/
def CallContext.callInternal (c : CallContext) (f : GoCallable) (injectSelf : Bool)
    (selfVal : Val) (evalArg : Nat → Val) : Context × Option Val :=
  if injectSelf && f.numIn == 1 && !f.variadic then
    let p := c.toContext.convertResult (f.call [selfVal])
    (p.1, some p.2)
  else if !f.variadic && c.ArgCount + (if injectSelf then 1 else 0) ≠ f.numIn then
    (c.toContext.SetError (some (arityErrorText c.name
      ((f.numIn : Int) - (if injectSelf then 1 else 0)) c.ArgCount)), none)
  else
    let callArgs := (if injectSelf then [selfVal] else [])
      ++ (List.range c.ArgCount).map (fun i =>
        if h : i < c.args.length then evalArg (c.args.get ⟨i, h⟩)
        else c.final.getD Val.nilv)
    let p := c.toContext.convertResult (f.call callArgs)
    (p.1, some p.2)

/-! ## Flow-control signalling (claims C5, C6, C9) -/

/-- The sentinel flow-control values (src/flow_control.go lines 9-16). -/
inductive flowControl where
  | fcFlow : flowControl
  | fcBreak : flowControl
  | fcContinue : flowControl
  | fcReturn : flowControl
deriving DecidableEq

/-- A Go panic payload as seen by `recover()`: either a flow-control
sentinel or some other value (carried as text). -/
inductive PanicVal where
  | fc : flowControl → PanicVal
  | other : String → PanicVal
deriving DecidableEq

/-- The result of running a piece of code that may panic: `none` is normal
completion. -/
abbrev Outcome := Option PanicVal

/-- `flow` (src/flow_control.go lines 34-50): run the action; a `nil`
recover leaves the zero result `fcFlow`; a recovered flow-control value is
re-panicked when it is `fcReturn` and becomes the result otherwise; any
other panic is re-raised unchanged. -/
def flow (action : Outcome) : Except PanicVal flowControl :=
  match action with
  | none => .ok flowControl.fcFlow
  | some (.fc rec) =>
    if rec = flowControl.fcReturn then .error (.fc rec) else .ok rec
  | some (.other rec) => .error (.other rec)

/-- Modelled from the spec: the iteration construct (the executor's range
loop, whose file is not under src/) wraps each loop-body execution in
`flow`; a `break` result stops the loop with the output produced so far, a
`continue` (or normal) result advances to the next element, and any
re-raised panic propagates out of the loop. -/
def rangeLoop (body : α → List Val × Outcome) : List α → Except PanicVal (List Val)
  | [] => .ok []
  | x :: xs =>
    let p := body x
    match flow p.2 with
    | .error pv => .error pv
    | .ok fc =>
      if fc = flowControl.fcBreak then .ok p.1
      else
        match rangeLoop body xs with
        | .ok rest => .ok (p.1 ++ rest)
        | .error pv => .error pv

/-- The buffered output sink of one template invocation (the
`*bytes.Buffer` writer used by `Execute`), as the list of printed
values. -/
structure OutState where
  buffer : List Val

/-- `s.printValue(root, value)` appends the rendered value to the sink. -/
def printValue (s : OutState) (v : Val) : OutState := ⟨s.buffer ++ [v]⟩

/-- The free function `convertResult` (src/flow_control.go lines 64-73):
no values collapse to `""`, one value to itself, several to the ordered
list. -/
def convertResult : List Val → Val
  | [] => Val.str ""
  | [a] => a
  | result => Val.list result

/-- `flowReturnValues` (src/flow_control.go lines 52-62): with evaluated
arguments present, reset the buffered output, print the collapsed
argument form, and in every case panic with `fcReturn`. -/
def flowReturnValues (args : List Val) (s : OutState) : OutState × PanicVal :=
  if args.length > 0 then
    let reset : OutState := ⟨[]⟩
    (printValue reset (convertResult args), .fc flowControl.fcReturn)
  else (s, .fc flowControl.fcReturn)

/-! ## The executor's panic-recovery boundary (claim C9) -/

/-- Errors as the boundary distinguishes them: the engine's positional
`ExecError`, a flow-control sentinel (`flowControl` implements `error`),
or any other error carrying its text. -/
inductive GoErr where
  | execError : String → GoErr
  | flowSig : flowControl → GoErr
  | otherErr : String → GoErr
deriving DecidableEq

/-- What `recover()` handed back: an `error` value, or a non-error panic
payload. -/
inductive RecoverVal where
  | errVal : GoErr → RecoverVal
  | nonError : String → RecoverVal
deriving DecidableEq

/-- `asError` (src/state.go lines 110-119): an error is kept, `nil` stays
`nil`, anything else becomes `fmt.Errorf("Panic %v", err)`. -/
def asError : Option RecoverVal → Option GoErr
  | none => none
  | some (.errVal e) => some e
  | some (.nonError s) => some (.otherErr ("Panic " ++ s))

/-- `GoErr.Error()`: the diagnostic text. -/
def GoErr.text : GoErr → String
  | .execError s => s
  | .flowSig flowControl.fcFlow => "flow"
  | .flowSig flowControl.fcBreak => "break"
  | .flowSig flowControl.fcContinue => "continue"
  | .flowSig flowControl.fcReturn => "return"
  | .otherErr s => s

/-- What `state.recovered` does next: resume normally, re-panic the very
same value, or convert to a template error via `s.errorf(err.Error())`. -/
inductive StepOutcome where
  | resume : StepOutcome
  | repanic : GoErr → StepOutcome
  | templateError : String → StepOutcome
deriving DecidableEq

/-- `state.recovered` (src/state.go lines 18-30): convert the recovered
value to an error, apply the optional mapping `f`, then: `nil` resumes;
`ExecError` and `flowControl` values are re-panicked unchanged; any other
error is turned into a template error through `s.errorf`. -/
def state.recovered (rec : Option RecoverVal) (f : Option (Option GoErr → Option GoErr)) :
    StepOutcome :=
  let err0 := asError rec
  let err := match f with
    | some g => g err0
    | none => err0
  match err with
  | none => .resume
  | some (.execError s) => .repanic (.execError s)
  | some (.flowSig fc) => .repanic (.flowSig fc)
  | some (.otherErr s) => .templateError s

/-- One frame of the call stack (src/state.go lines 11-14); the callable
signature is irrelevant here. -/
structure StackCall where
  name : String

/-- `s.peekStack(n)` = `s.stack[len(s.stack)-n-1]` (src/state.go line 79). -/
def peekStack (stack : List StackCall) (n : Nat) : StackCall :=
  stack.getD (stack.length - n - 1) ⟨""⟩

/-- `state.errorHandled` (src/state.go lines 80-85): a flow-control
signal is always reported as handled; otherwise the error counts as
handled when the caller one frame up is the `trap` function. -/
def state.errorHandled (stack : List StackCall) (err : GoErr) : Bool :=
  match err with
  | .flowSig _ => true
  | _ => stack.length > 1 && (peekStack stack 1).name == "trap"

/-! ## Registry mutation (claim C7) -/

/-- Go map assignment `managers[name] = ms`: replace the unique entry for
`name`, or append a new one. -/
def setKey (name : String) (ms : List ErrorManager) :
    List (String × List ErrorManager) → List (String × List ErrorManager)
  | [] => [(name, ms)]
  | (k, v) :: rest =>
    if k = name then (name, ms) :: rest else (k, v) :: setKey name ms rest

/-- Go map `delete(managers, name)`. -/
def delKey (name : String) (l : List (String × List ErrorManager)) :
    List (String × List ErrorManager) :=
  l.filter (fun p => p.1 != name)

/-- `Template.ErrorManagers` (src/unnamed/part_001 lines 28-44): an empty
manager list deletes the named group, otherwise the group is replaced;
the key list is then rebuilt from the map's keys and sorted
(`sort.Strings`). -/
def Template.ErrorManagers (r : errorHandlers) (name : String)
    (managers : List ErrorManager) : errorHandlers :=
  let m := if managers.isEmpty then delKey name r.managers
           else setKey name managers r.managers
  ⟨m, List.insertionSort (fun a b => a ≤ b) (m.map (fun p => p.1))⟩

/-! ## Function-map registration (claim C10)

`Template.ExtraFuncs` (src/unnamed/part_001 lines 67-95) mutates Go maps
through references, so the embedding uses an explicit heap of maps:
references are indices, reads and writes name the reference they go
through.  A function value is described by the declared types of its
return slots (`true` = the error interface). -/

structure GoFunc where
  outs : List Bool
deriving DecidableEq

/-- A function-map entry: a caller-supplied function, the replacement
closure `func(in *Context) (interface{}, error)` wrapping one, or a value
whose reflect kind is not `Func`. -/
inductive FuncEntry where
  | original : GoFunc → FuncEntry
  | wrapper : GoFunc → FuncEntry
  | notFunc : FuncEntry
deriving DecidableEq

abbrev FuncMap := List (String × FuncEntry)

abbrev MapHeap := List FuncMap

def heapGet (h : MapHeap) (r : Nat) : FuncMap := List.getD h r []

def heapSet (h : MapHeap) (r : Nat) (m : FuncMap) : MapHeap := List.set h r m

def heapAlloc (h : MapHeap) (m : FuncMap) : MapHeap × Nat := (h ++ [m], h.length)

def mapGet (m : FuncMap) (name : String) : Option FuncEntry :=
  (List.find? (fun p => p.1 == name) m).map (fun p => p.2)

/-- Go map assignment `m[name] = e` on a function map. -/
def mapSet (name : String) (e : FuncEntry) : FuncMap → FuncMap
  | [] => [(name, e)]
  | (k, v) :: rest =>
    if k = name then (name, e) :: rest else (k, v) :: mapSet name e rest

/-- `reflect.ValueOf(fn).Kind() != reflect.Func` (line 71). -/
def entryIsFunc : FuncEntry → Bool
  | .notFunc => false
  | _ => true

/-- The declared return-slot types of an entry; the wrapper closure's
reflect type is `func(*Context) (interface{}, error)`. -/
def entryOuts : FuncEntry → List Bool
  | .original g => g.outs
  | .wrapper _ => [false, true]
  | .notFunc => []

/-- `ft.NumOut() == 1 && ft.Out(0) != errorType || ft.NumOut() == 2 &&
ft.Out(1) == errorType` (line 75): the standard one-value or
value-plus-error signature, left untouched. -/
def entryStandard (e : FuncEntry) : Bool :=
  ((entryOuts e).length == 1 && !(List.getD (entryOuts e) 0 false))
    || ((entryOuts e).length == 2 && List.getD (entryOuts e) 1 false)

/-- `replaced[name] = func(in *Context) (interface{}, error) {...}`
capturing the original function. -/
def wrapEntry : FuncEntry → FuncEntry
  | .original g => .wrapper g
  | e => e

/-- The `for name := range funcMap` body of `ExtraFuncs` (lines 69-88):
skip non-functions and standard signatures; on the first non-standard
entry duplicate the supplied map into a fresh reference (`replaced`), and
write every replacement through that fresh reference only. -/
def extraFuncsLoop (r : Nat) : List String → MapHeap → Option Nat → MapHeap × Option Nat
  | [], h, replaced => (h, replaced)
  | name :: rest, h, replaced =>
    match mapGet (heapGet h r) name with
    | none => extraFuncsLoop r rest h replaced
    | some e =>
      if !entryIsFunc e then extraFuncsLoop r rest h replaced
      else if entryStandard e then extraFuncsLoop r rest h replaced
      else
        let hr : MapHeap × Nat :=
          match replaced with
          | some rr => (h, rr)
          | none => heapAlloc h (heapGet h r)
        let h2 := heapSet hr.1 hr.2 (mapSet name (wrapEntry e) (heapGet hr.1 hr.2))
        extraFuncsLoop r rest h2 (some hr.2)

/-- `Template.ExtraFuncs` (src/unnamed/part_001 lines 67-95): run the loop
over the supplied map's entries; when replacements were made the freshly
duplicated map is the one registered (`t.Funcs(replaced)`), otherwise the
supplied map itself (`t.Funcs(funcMap)`).  The returned reference is the
map handed to `Funcs`. -/
def Template.ExtraFuncs (h : MapHeap) (r : Nat) : MapHeap × Nat :=
  let names := (heapGet h r).map (fun p => p.1)
  let p := extraFuncsLoop r names h none
  match p.2 with
  | some rr => (p.1, rr)
  | none => (p.1, r)

/-- `Template.SafeFuncs` (src/error_template.go lines 29-64): its
signature filter, one-time duplication and replacement writes are
identical to `ExtraFuncs`; the additional `_FailHandler` registration and
`trap` function it installs act on the template, not on the supplied
map. -/
def Template.SafeFuncs (h : MapHeap) (r : Nat) : MapHeap × Nat :=
  Template.ExtraFuncs h r

/-! # Theorems -/

/-! ## Claim C1 -/

/-- A manager restricted to `Field`-sourced contexts and nothing else. -/
def c1Manager : ErrorManager :=
  ⟨fun c => (c, Val.nilv, ErrorAction.NoReplace), ContextSource.Field, 0, [], [], []⟩

/-- A failing context whose source is `Call`, disjoint from the manager's
`Field` mask. -/
def c1Context : Context :=
  ⟨ContextSource.Call, MissingAction.Invalid, "member", 0, some "boom", Val.nilv⟩

/-- C1: the claim states that with a non-zero `sourceMask`, `CanManage`
returns true only when the context's source bit intersects the mask
(bitwise AND non-zero).  The cited implementation tests the mask through
`IsSet`, which is written with bitwise OR (`s|value != 0`), so a manager
whose mask is `Field` still accepts a `Call`-sourced context even though
the AND of the masks is zero; the sibling variant of `CanManage` written
with `&` rejects it.  This contradicts the `IsSet` doc comment ("check
whether or not the source has the specified value set") and the
behaviour the repository's own handler tests rely on. -/
theorem C1_canManage_ignores_masks :
    c1Manager.source ≠ 0
    ∧ c1Manager.source &&& c1Context.source = 0
    ∧ c1Manager.CanManage c1Context = true
    ∧ c1Manager.CanManageAnd c1Context = false := by
  refine ⟨by decide, by decide, rfl, rfl⟩

/-! ## Claim C3 -/

/-- A context carrying a stale error, as at a call-failure site. -/
def c3Context : Context :=
  ⟨ContextSource.Call, MissingAction.Invalid, "fn", 0, some "previous", Val.nilv⟩

/-- C3: return-shape normalization of `convertResult`.  Zero returned
values yield `("", nil)`; two non-error values yield the ordered pair and
no error; a value plus a trailing error yields that value and the error.
However a callable returning exactly one error-typed value yields the
EMPTY LIST as its value — not the empty string the claim (and the
`ExtraFuncs` doc comment, src/unnamed/part_001 line 66) promises — both
when the error is nil and when it is not. -/
theorem C3_convertResult_shapes :
    c3Context.convertResult [] = (c3Context.ClearError, Val.str "")
    ∧ c3Context.convertResult [⟨true, Val.nilv⟩]
        = (c3Context.SetError none, Val.list [])
    ∧ c3Context.convertResult [⟨true, Val.errv "bang"⟩]
        = (c3Context.SetError (some "bang"), Val.list [])
    ∧ c3Context.convertResult [⟨false, Val.num 1⟩, ⟨false, Val.str "x"⟩]
        = (c3Context.ClearError, Val.list [Val.num 1, Val.str "x"])
    ∧ c3Context.convertResult [⟨false, Val.num 4⟩, ⟨true, Val.errv "e"⟩]
        = (c3Context.SetError (some "e"), Val.num 4)
    ∧ Val.list [] ≠ Val.str "" := by
  exact ⟨rfl, rfl, rfl, rfl, rfl, fun h => Val.noConfusion h⟩

/-! ## Claim C8 -/

/-- With an empty manager map every group lookup is the nil slice, so the
inner scan of the first `tryRecover` variant never fires a handler. -/
theorem scanGroupsA_of_no_managers (ks : List String) (r : errorHandlers) (c : Context)
    (acc : ErrorAction) (h : r.managers = []) : scanGroupsA ks r c acc = (c, acc) := by
  induction ks with
  | nil => rfl
  | cons k ks ih => simp [scanGroupsA, errorHandlers.lookup, h, scanManagersA, ih]

/-- Same for the second `tryRecover` variant. -/
theorem scanGroupsB_of_no_managers (ks : List String) (r : errorHandlers) (c : Context)
    (h : r.managers = []) : scanGroupsB ks r c = (c, ErrorAction.NoReplace) := by
  induction ks with
  | nil => rfl
  | cons k ks ih => simp [scanGroupsB, errorHandlers.lookup, h, scanManagersB, ih]

/-- C8: with zero registered managers, both `tryRecover` variants return
the original failure unchanged — the very same error value, hence the
same diagnostic text — and leave the whole context, in particular its
result slot, untouched. -/
theorem C8_tryRecover_no_managers (r : errorHandlers) (ef : Context → Val → Val)
    (c : Context) (h : r.managers = []) :
    c.tryRecoverA r ef = (c, c.err) ∧ c.tryRecoverB r ef = (c, c.err) := by
  constructor
  · simp [Context.tryRecoverA, scanGroupsA_of_no_managers _ _ _ _ h]
  · simp [Context.tryRecoverB, scanGroupsB_of_no_managers _ _ _ h]

/-- An empty registry that still lists a (dangling) key. -/
def c8Registry : errorHandlers := ⟨[], ["group"]⟩

def c8EvalField : Context → Val → Val := fun _ v => v

def c8Context : Context :=
  ⟨ContextSource.Field, MissingAction.Error, "missing", 0, some "no entry for key", Val.nilv⟩

/-- Witness for C8 at a concrete empty registry and failing context. -/
theorem C8_tryRecover_no_managers_witness :
    c8Registry.managers = []
    ∧ c8Context.tryRecoverA c8Registry c8EvalField = (c8Context, c8Context.err)
    ∧ c8Context.tryRecoverB c8Registry c8EvalField = (c8Context, c8Context.err) :=
  ⟨rfl, (C8_tryRecover_no_managers c8Registry c8EvalField c8Context rfl).1,
    (C8_tryRecover_no_managers c8Registry c8EvalField c8Context rfl).2⟩

/-! ## Claim C6 -/

/-- The collapsed form of two or more arguments is their ordered list. -/
theorem convertResult_of_two_le (args : List Val) (h : 2 ≤ args.length) :
    convertResult args = Val.list args := by
  match args, h with
  | a :: b :: rest, _ => rfl

/-- C6: `return` with zero arguments produces no output (the buffered
output and the sink are left as they are); with one argument it renders
exactly that value; with several it renders their ordered-list form; and
whenever it renders it first resets the buffer, so the resulting output
is the rendered value alone regardless of what had been buffered —
replace, not append.  In every case the `fcReturn` signal is raised. -/
theorem C6_flowReturnValues (s : OutState) (a : Val) (args : List Val)
    (h2 : 2 ≤ args.length) :
    flowReturnValues [] s = (s, .fc flowControl.fcReturn)
    ∧ flowReturnValues [a] s = (⟨[a]⟩, .fc flowControl.fcReturn)
    ∧ flowReturnValues args s = (⟨[Val.list args]⟩, .fc flowControl.fcReturn) := by
  refine ⟨rfl, rfl, ?_⟩
  have hpos : args.length > 0 := Nat.lt_of_lt_of_le (by decide) h2
  simp [flowReturnValues, hpos, printValue, convertResult_of_two_le args h2]

/-- Witness for C6: a two-value return replaces a non-empty buffer. -/
theorem C6_flowReturnValues_witness :
    2 ≤ ([Val.num 1, Val.num 2] : List Val).length
    ∧ flowReturnValues [Val.num 1, Val.num 2] ⟨[Val.str "old"]⟩
        = (⟨[Val.list [Val.num 1, Val.num 2]]⟩, .fc flowControl.fcReturn) :=
  ⟨by decide,
    (C6_flowReturnValues ⟨[Val.str "old"]⟩ Val.nilv [Val.num 1, Val.num 2] (by decide)).2.2⟩

/-! ## Claim C9 -/

/-- C9: the executor's panic-recovery boundary (`state.recovered`)
re-raises a flow-control signal as the very same value — it is never
turned into a template error — and `state.errorHandled` reports every
flow-control signal as already handled regardless of the call stack, so
the recovery machinery never claims it; an ordinary error, by contrast,
is converted through `s.errorf`. -/
theorem C9_flow_signals_pass_boundary (fc : flowControl) (stack : List StackCall)
    (s : String) :
    state.recovered (some (.errVal (.flowSig fc))) none = .repanic (.flowSig fc)
    ∧ state.errorHandled stack (.flowSig fc) = true
    ∧ (∀ t, state.recovered (some (.errVal (.flowSig fc))) none ≠ .templateError t)
    ∧ state.recovered (some (.errVal (.otherErr s))) none = .templateError s := by
  refine ⟨rfl, rfl, fun t h => StepOutcome.noConfusion h, rfl⟩

/-! ## Claim C5 -/

/-- C5: for every loop-body execution wrapped by `flow`: a break signal
is absorbed and stops the whole loop (the loop yields the output produced
up to the break, visiting no further element); a continue signal is
absorbed and stops only the current iteration (the loop proceeds with the
remaining elements); a return signal is never absorbed — `flow`
re-panics it, so it escapes every enclosing loop, nested ones included,
toward the template-invocation boundary; and a non-flow-control panic is
re-raised unchanged. -/
theorem C5_flow_control (α β : Type) (body : α → List Val × Outcome) (x : α)
    (xs : List α) (out : List Val) (p : String)
    (outer : β → List Val × Outcome) (y : β) (ys : List β) :
    flow (some (.fc flowControl.fcBreak)) = .ok flowControl.fcBreak
    ∧ flow (some (.fc flowControl.fcContinue)) = .ok flowControl.fcContinue
    ∧ flow none = .ok flowControl.fcFlow
    ∧ flow (some (.fc flowControl.fcReturn)) = .error (.fc flowControl.fcReturn)
    ∧ flow (some (.other p)) = .error (.other p)
    ∧ (body x = (out, some (.fc flowControl.fcBreak)) →
        rangeLoop body (x :: xs) = .ok out)
    ∧ (body x = (out, some (.fc flowControl.fcContinue)) →
        rangeLoop body (x :: xs)
          = match rangeLoop body xs with
            | .ok rest => .ok (out ++ rest)
            | .error pv => .error pv)
    ∧ (body x = (out, some (.fc flowControl.fcReturn)) →
        rangeLoop body (x :: xs) = .error (.fc flowControl.fcReturn))
    ∧ (body x = (out, some (.other p)) →
        rangeLoop body (x :: xs) = .error (.other p))
    ∧ (rangeLoop body (x :: xs) = .error (.fc flowControl.fcReturn) →
        outer y = ([], some (.fc flowControl.fcReturn)) →
        rangeLoop outer (y :: ys) = .error (.fc flowControl.fcReturn)) := by
  refine ⟨rfl, rfl, rfl, rfl, rfl, ?_, ?_, ?_, ?_, ?_⟩
  · intro h; simp [rangeLoop, h, flow]
  · intro h; simp [rangeLoop, h, flow]
  · intro h; simp [rangeLoop, h, flow]
  · intro h; simp [rangeLoop, h, flow]
  · intro _ houter
    simp [rangeLoop, houter, flow]

/-- A loop body breaking at its third element. -/
def c5Body : Nat → List Val × Outcome := fun n =>
  if n = 3 then ([Val.num (Int.ofNat n)], some (.fc flowControl.fcBreak))
  else ([Val.num (Int.ofNat n)], none)

/-- Witness for C5: running the loop over six elements with a body that
breaks at the third stops there. -/
theorem C5_flow_control_witness :
    c5Body 3 = ([Val.num 3], some (.fc flowControl.fcBreak))
    ∧ rangeLoop c5Body (3 :: [4, 5, 6, 7, 8]) = .ok [Val.num 3] :=
  ⟨rfl, ((C5_flow_control Nat Unit c5Body 3 [4, 5, 6, 7, 8] [Val.num 3] "p"
    (fun _ => ([], none)) () []).2.2.2.2.2.1 rfl)⟩

/-! ## Claim C2 -/

/-- The managers of all groups in key order — the sequence the nested
`tryRecover` loops traverse. -/
def errorHandlers.flatten (r : errorHandlers) : List ErrorManager :=
  (r.keys.map r.lookup).flatten

/-- A prefix of managers that all either fail `CanManage` or answer
`NoReplace`, threading the context mutations their handlers make;
`none` when one of them substitutes. -/
def runDecliners : List ErrorManager → Context → Option Context
  | [], c => some c
  | m :: rest, c =>
    if m.CanManage c then
      match m.fn c with
      | (c1, _, action) =>
        if action = ErrorAction.NoReplace then runDecliners rest c1 else none
    else runDecliners rest c

/-- The second-variant inner scan distributes over list append. -/
theorem scanManagersB_append (xs ys : List ErrorManager) (c : Context) :
    scanManagersB (xs ++ ys) c
      = (match scanManagersB xs c with
         | (c1, a, true) => (c1, a, true)
         | (c1, _, false) => scanManagersB ys c1) := by
  induction xs generalizing c with
  | nil => simp [scanManagersB]
  | cons m xs ih =>
    cases hm : m.CanManage c with
    | false => simp [scanManagersB, hm, ih]
    | true =>
      rcases hfn : m.fn c with ⟨c1, v, a⟩
      by_cases ha : a = ErrorAction.NoReplace
      · simp [scanManagersB, hm, hfn, ha, ih]
      · simp [scanManagersB, hm, hfn, ha]

/-- Scanning past a declining prefix continues from the context the
declining handlers left behind. -/
theorem scanManagersB_decliners (pre : List ErrorManager) (ms : List ErrorManager)
    (c c' : Context) (h : runDecliners pre c = some c') :
    scanManagersB (pre ++ ms) c = scanManagersB ms c' := by
  induction pre generalizing c with
  | nil =>
    simp [runDecliners] at h
    subst h; rfl
  | cons m pre ih =>
    cases hm : m.CanManage c with
    | false =>
      simp [runDecliners, hm] at h
      simpa [scanManagersB, hm] using ih c h
    | true =>
      rcases hfn : m.fn c with ⟨c1, v, a⟩
      by_cases ha : a = ErrorAction.NoReplace
      · simp [runDecliners, hm, hfn, ha] at h
        simpa [scanManagersB, hm, hfn, ha] using ih c1 h
      · simp [runDecliners, hm, hfn, ha] at h

/-- In the second variant, a manager that claims the context and reports
an action other than `NoReplace` ends the scan at once: the result slot
receives its value and the managers after it are never consulted. -/
theorem scanManagersB_stops (m : ErrorManager) (rest : List ErrorManager) (c : Context)
    (hcan : m.CanManage c = true) (hact : (m.fn c).2.2 ≠ ErrorAction.NoReplace) :
    scanManagersB (m :: rest) c
      = ((m.fn c).1.SetResult (m.fn c).2.1, (m.fn c).2.2, true) := by
  rcases hfn : m.fn c with ⟨c1, v, a⟩
  rw [hfn] at hact
  simp [scanManagersB, hcan, hfn, hact]

/-- The nested key/manager loops of the second variant traverse exactly
the flattened manager sequence. -/
theorem scanGroupsB_eq_flatten (ks : List String) (r : errorHandlers) (c : Context) :
    scanGroupsB ks r c
      = ((scanManagersB ((ks.map r.lookup).flatten) c).1,
         (scanManagersB ((ks.map r.lookup).flatten) c).2.1) := by
  induction ks generalizing c with
  | nil => rfl
  | cons k ks ih =>
    rw [List.map_cons, List.flatten_cons, scanManagersB_append]
    rcases hs : scanManagersB (r.lookup k) c with ⟨c1, a1, b⟩
    cases b
    · simp [scanGroupsB, hs, ih]
    · simp [scanGroupsB, hs]

/-- C2 (amended): in the second `tryRecover` variant — the policy the spec
adopts as canonical — once the scan, having crossed only managers that
declined (`NoReplace`) or could not manage, reaches a manager that claims
the context and reports an action other than `NoReplace`, that manager's
returned value is written into the result slot and scanning stops
immediately: the managers after it (`post`) never influence the outcome,
which depends on the claiming manager alone (plus the `array`
re-application when its action is `ResultAsArray`). -/
theorem C2_tryRecoverB_stops_at_first_substitution
    (r : errorHandlers) (ef : Context → Val → Val) (c c' : Context)
    (pre post : List ErrorManager) (m : ErrorManager)
    (hflat : r.flatten = pre ++ m :: post)
    (hpre : runDecliners pre c = some c')
    (hcan : m.CanManage c' = true)
    (hact : (m.fn c').2.2 ≠ ErrorAction.NoReplace) :
    c.tryRecoverB r ef
      = (let c2 := (m.fn c').1.SetResult (m.fn c').2.1
         let c3 := if (m.fn c').2.2 = ErrorAction.ResultAsArray
                   then c2.SetResult (Val.list ((c2.result.asList).map (fun e => ef c2 e)))
                   else c2
         (c3, c3.err)) := by
  unfold errorHandlers.flatten at hflat
  unfold Context.tryRecoverB
  rw [scanGroupsB_eq_flatten, hflat, scanManagersB_decliners pre (m :: post) c c' hpre,
    scanManagersB_stops m post c' hcan hact]

/-- A handler that substitutes the value `"A"` but leaves the pending
error in place. -/
def c2Handler1 : ErrorManager :=
  ⟨fun c => (c, Val.str "A", ErrorAction.ResultReplaced), 0, 0, [], [], []⟩

/-- A handler that clears the error and substitutes `"B"`. -/
def c2Handler2 : ErrorManager :=
  ⟨fun c => (c.SetError none, Val.str "B", ErrorAction.ResultReplaced), 0, 0, [], [], []⟩

def c2Registry : errorHandlers := ⟨[("k", [c2Handler1, c2Handler2])], ["k"]⟩

def c2EvalField : Context → Val → Val := fun _ v => v

def c2Context : Context :=
  ⟨ContextSource.Field, MissingAction.Invalid, "m", 0, some "boom", Val.nilv⟩

/-- C2 is false for the first `tryRecover` variant: the first manager
reports `ResultReplaced` and writes `"A"`, but because it left the error
pending the scan continues and the second manager's handler still runs,
overwriting the result slot with `"B"` (and clearing the error).  Under
the claim the scan would have stopped at the first substitution with
result `"A"`. -/
theorem C2_counterexample :
    (c2Context.tryRecoverA c2Registry c2EvalField).1.result = Val.str "B"
    ∧ (c2Context.tryRecoverA c2Registry c2EvalField).2 = none
    ∧ Val.str "B" ≠ Val.str "A" := by
  refine ⟨rfl, rfl, fun h => ?_⟩
  injection h with h'
  exact absurd h' (by decide)

/-- A declining manager. -/
def c2Decliner : ErrorManager :=
  ⟨fun c => (c, Val.nilv, ErrorAction.NoReplace), 0, 0, [], [], []⟩

/-- The first substituting manager of the witness registry. -/
def c2Sub : ErrorManager :=
  ⟨fun c => (c.SetError none, Val.str "sub", ErrorAction.ResultReplaced), 0, 0, [], [], []⟩

/-- A later manager that would poison the result if it ever ran. -/
def c2Poison : ErrorManager :=
  ⟨fun c => (c, Val.str "poison", ErrorAction.ResultReplaced), 0, 0, [], [], []⟩

def c2RegistryB : errorHandlers := ⟨[("g", [c2Decliner, c2Sub, c2Poison])], ["g"]⟩

/-- Witness for the amended C2 theorem: with a decliner before it and a
poison manager after it, the substituting manager alone determines the
outcome of the second variant. -/
theorem C2_tryRecoverB_stops_witness :
    c2RegistryB.flatten = [c2Decliner] ++ c2Sub :: [c2Poison]
    ∧ runDecliners [c2Decliner] c2Context = some c2Context
    ∧ c2Sub.CanManage c2Context = true
    ∧ (c2Sub.fn c2Context).2.2 ≠ ErrorAction.NoReplace
    ∧ c2Context.tryRecoverB c2RegistryB c2EvalField
        = (⟨ContextSource.Field, MissingAction.Invalid, "m", 0, none, Val.str "sub"⟩, none) :=
  ⟨rfl, rfl, rfl, by decide,
    C2_tryRecoverB_stops_at_first_substitution c2RegistryB c2EvalField c2Context c2Context
      [c2Decliner] [c2Poison] c2Sub rfl rfl rfl (by decide)⟩

/-! ## Claim C4 -/

/-- C4 (amended): the adapter raises an arity error — returning Go `nil`
(`none`) with the formatted diagnostic naming the member, the wanted count
`NumIn()-first` and the got count written into the context — precisely
when the callable is non-variadic, is NOT the self-injection-exempt shape
(`injectSelf` with exactly one declared parameter), and the supplied
count (argument expressions plus piped final value) plus the injected
self differs from the declared parameter count.  In particular a
non-variadic callable invoked plainly with exactly its declared number of
argument expressions never gets an arity error, and a variadic callable
never gets one at all. -/
theorem C4_arity (c : CallContext) (f : GoCallable) (injectSelf : Bool)
    (selfVal : Val) (evalArg : Nat → Val) :
    ((c.callInternal f injectSelf selfVal evalArg).2 = none
      ↔ (f.variadic = false
          ∧ ¬(injectSelf = true ∧ f.numIn = 1)
          ∧ c.ArgCount + (if injectSelf then 1 else 0) ≠ f.numIn))
    ∧ ((c.callInternal f injectSelf selfVal evalArg).2 = none →
        (c.callInternal f injectSelf selfVal evalArg).1.err
          = some (arityErrorText c.name
              ((f.numIn : Int) - (if injectSelf then 1 else 0)) c.ArgCount)) := by
  obtain ⟨numIn, variadic, call⟩ := f
  cases injectSelf <;> cases variadic
  · by_cases hc : c.ArgCount = numIn <;>
      simp [CallContext.callInternal, Context.SetError, hc]
  · simp [CallContext.callInternal]
  · by_cases h1 : numIn = 1
    · simp [CallContext.callInternal, h1]
    · by_cases hc : c.ArgCount + 1 = numIn <;>
        simp [CallContext.callInternal, Context.SetError, h1, hc]
  · simp [CallContext.callInternal]

/-- A non-variadic callable with exactly one declared parameter,
returning one ordinary value. -/
def c4Fun : GoCallable := ⟨1, false, fun _ => [⟨false, Val.str "ok"⟩]⟩

/-- A call context carrying one argument expression and no piped value. -/
def c4Ctx : CallContext :=
  ⟨⟨ContextSource.Call, 1, "fn", 0, some "pending", Val.nilv⟩, [7], none⟩

def c4Eval : Nat → Val := fun _ => Val.num 0

/-- C4 is false as stated: under self-injection, a non-variadic callable
with exactly one declared parameter is exempt from the arity check
(src/context.go lines 118-120), so although the supplied count plus the
injected self (1 + 1 = 2) differs from the declared count (1), no arity
error is raised — the call succeeds and the context error is cleared. -/
theorem C4_counterexample :
    c4Fun.variadic = false
    ∧ c4Ctx.ArgCount + 1 ≠ c4Fun.numIn
    ∧ (c4Ctx.callInternal c4Fun true Val.nilv c4Eval).2 = some (Val.str "ok")
    ∧ (c4Ctx.callInternal c4Fun true Val.nilv c4Eval).1.err = none :=
  ⟨rfl, by decide, rfl, rfl⟩

/-- A non-variadic callable declaring two parameters. -/
def c4MismatchFun : GoCallable := ⟨2, false, fun _ => [⟨false, Val.str "x"⟩]⟩

/-- Witness for the amended C4 theorem: a plain (no self) call of a
two-parameter callable with a single argument raises the arity error,
formatted from the member name, the wanted and the got counts, written
into the context. -/
theorem C4_arity_witness :
    (c4Ctx.callInternal c4MismatchFun false Val.nilv c4Eval).2 = none
    ∧ (c4Ctx.callInternal c4MismatchFun false Val.nilv c4Eval).1.err
        = some (arityErrorText c4Ctx.name
            ((c4MismatchFun.numIn : Int) - (if false then 1 else 0)) c4Ctx.ArgCount) :=
  ⟨(C4_arity c4Ctx c4MismatchFun false Val.nilv c4Eval).1.mpr
      ⟨rfl, by simp, by decide⟩,
    (C4_arity c4Ctx c4MismatchFun false Val.nilv c4Eval).2
      ((C4_arity c4Ctx c4MismatchFun false Val.nilv c4Eval).1.mpr
        ⟨rfl, by simp, by decide⟩)⟩

/-! ## Claim C7 -/

/-- The registry's bookkeeping invariant: the key list is the sorted list
of the map's keys, as every `ErrorManagers` call re-establishes. -/
def errorHandlers.WF (r : errorHandlers) : Prop :=
  r.keys = List.insertionSort (fun a b => a ≤ b) (r.managers.map Prod.fst)

theorem find_setKey_self (name : String) (ms : List ErrorManager)
    (l : List (String × List ErrorManager)) :
    List.find? (fun p => p.1 == name) (setKey name ms l) = some (name, ms) := by
  induction l with
  | nil => simp [setKey]
  | cons p l ih =>
    rcases p with ⟨k, v⟩
    by_cases h : k = name
    · simp [setKey, h]
    · simp [setKey, h, ih]

theorem find_setKey_other (name other : String) (hne : other ≠ name)
    (ms : List ErrorManager) (l : List (String × List ErrorManager)) :
    List.find? (fun p => p.1 == other) (setKey name ms l)
      = List.find? (fun p => p.1 == other) l := by
  induction l with
  | nil => simp [setKey, Ne.symm hne]
  | cons p l ih =>
    rcases p with ⟨k, v⟩
    by_cases h : k = name
    · simp [setKey, h, Ne.symm hne]
    · by_cases hk : k = other <;> simp [setKey, h, hk, hne, ih]

theorem find_delKey_self (name : String) (l : List (String × List ErrorManager)) :
    List.find? (fun p => p.1 == name) (delKey name l) = none := by
  induction l with
  | nil => simp [delKey]
  | cons p l ih =>
    rcases p with ⟨k, v⟩
    simp only [delKey] at ih
    by_cases h : k = name
    · simp [delKey, h, ih]
    · simp [delKey, h, ih]

theorem find_delKey_other (name other : String) (hne : other ≠ name)
    (l : List (String × List ErrorManager)) :
    List.find? (fun p => p.1 == other) (delKey name l)
      = List.find? (fun p => p.1 == other) l := by
  induction l with
  | nil => simp [delKey]
  | cons p l ih =>
    rcases p with ⟨k, v⟩
    simp only [delKey] at ih
    by_cases h : k = name
    · subst h
      simpa [delKey, Ne.symm hne] using ih
    · by_cases hk : k = other <;> simp [delKey, h, hk, hne, ih]

theorem setKey_idem (name : String) (ms : List ErrorManager)
    (l : List (String × List ErrorManager)) :
    setKey name ms (setKey name ms l) = setKey name ms l := by
  induction l with
  | nil => simp [setKey]
  | cons p l ih =>
    rcases p with ⟨k, v⟩
    by_cases h : k = name
    · simp [setKey, h]
    · simp [setKey, h, ih]

theorem delKey_idem (name : String) (l : List (String × List ErrorManager)) :
    delKey name (delKey name l) = delKey name l := by
  induction l with
  | nil => rfl
  | cons p l ih =>
    rcases p with ⟨k, v⟩
    by_cases h : k = name
    · simp [delKey, h, ih]
    · simp [delKey, h, ih]

theorem keys_setKey_filter (name : String) (ms : List ErrorManager)
    (l : List (String × List ErrorManager)) :
    ((setKey name ms l).map Prod.fst).filter (fun k => k != name)
      = (l.map Prod.fst).filter (fun k => k != name) := by
  induction l with
  | nil => simp [setKey]
  | cons p l ih =>
    rcases p with ⟨k, v⟩
    by_cases h : k = name
    · simp [setKey, h]
    · simp [setKey, h, ih]

theorem keys_delKey_filter (name : String) (l : List (String × List ErrorManager)) :
    ((delKey name l).map Prod.fst).filter (fun k => k != name)
      = (l.map Prod.fst).filter (fun k => k != name) := by
  induction l with
  | nil => rfl
  | cons p l ih =>
    rcases p with ⟨k, v⟩
    simp only [delKey] at ih
    by_cases h : k = name
    · simpa [delKey, h] using ih
    · simp [delKey, h, ih]

/-- Two key lists agreeing outside `name` keep agreeing outside `name`
after sorting: sorted lists that are permutations of one another are
equal. -/
theorem insertionSort_filter_congr (p : String → Bool) (l₁ l₂ : List String)
    (h : l₁.filter p = l₂.filter p) :
    (List.insertionSort (fun a b => a ≤ b) l₁).filter p
      = (List.insertionSort (fun a b => a ≤ b) l₂).filter p := by
  have hs₁ : List.Sorted (fun a b : String => a ≤ b)
      ((List.insertionSort (fun a b => a ≤ b) l₁).filter p) :=
    List.Pairwise.sublist (List.filter_sublist _) (List.sorted_insertionSort _ l₁)
  have hs₂ : List.Sorted (fun a b : String => a ≤ b)
      ((List.insertionSort (fun a b => a ≤ b) l₂).filter p) :=
    List.Pairwise.sublist (List.filter_sublist _) (List.sorted_insertionSort _ l₂)
  have hp : List.Perm ((List.insertionSort (fun a b => a ≤ b) l₁).filter p)
      ((List.insertionSort (fun a b => a ≤ b) l₂).filter p) := by
    refine ((List.perm_insertionSort _ l₁).filter p).trans ?_
    rw [h]
    exact ((List.perm_insertionSort _ l₂).filter p).symm
  exact List.eq_of_perm_of_sorted hp hs₁ hs₂

/-- C7: registering managers under a name replaces exactly the named
group (an empty list removes exactly it); every other group is looked up
unchanged; the whole operation is idempotent; the key list is re-sorted
lexicographically after the mutation; and the relative order of all other
keys is preserved; the bookkeeping invariant is re-established. -/
theorem C7_registry_mutation (r : errorHandlers) (name other : String)
    (ms : List ErrorManager) (hother : other ≠ name) (hwf : r.WF) :
    (Template.ErrorManagers r name ms).lookup name = (if ms.isEmpty then [] else ms)
    ∧ (Template.ErrorManagers r name ms).lookup other = r.lookup other
    ∧ Template.ErrorManagers (Template.ErrorManagers r name ms) name ms
        = Template.ErrorManagers r name ms
    ∧ List.Sorted (fun a b => a ≤ b) (Template.ErrorManagers r name ms).keys
    ∧ (Template.ErrorManagers r name ms).keys.filter (fun k => k != name)
        = r.keys.filter (fun k => k != name)
    ∧ (Template.ErrorManagers r name ms).WF := by
  cases hms : ms.isEmpty
  case false =>
    refine ⟨?_, ?_, ?_, List.sorted_insertionSort _ _, ?_, rfl⟩
    · simp [Template.ErrorManagers, errorHandlers.lookup, hms, find_setKey_self]
    · simp [Template.ErrorManagers, errorHandlers.lookup, hms,
        find_setKey_other name other hother ms r.managers]
    · simp [Template.ErrorManagers, hms, setKey_idem]
    · simp only [Template.ErrorManagers, hms, Bool.false_eq_true, if_false]
      rw [hwf]
      exact insertionSort_filter_congr _ _ _ (keys_setKey_filter name ms r.managers)
  case true =>
    refine ⟨?_, ?_, ?_, List.sorted_insertionSort _ _, ?_, rfl⟩
    · simp [Template.ErrorManagers, errorHandlers.lookup, hms, find_delKey_self]
    · simp [Template.ErrorManagers, errorHandlers.lookup, hms,
        find_delKey_other name other hother r.managers]
    · simp [Template.ErrorManagers, hms, delKey_idem]
    · simp only [Template.ErrorManagers, hms, if_true]
      rw [hwf]
      exact insertionSort_filter_congr _ _ _ (keys_delKey_filter name r.managers)

def c7Manager : ErrorManager :=
  ⟨fun c => (c, Val.nilv, ErrorAction.NoReplace), 0, 0, [], [], []⟩

def c7Registry : errorHandlers := ⟨[("b", [c7Manager])], ["b"]⟩

/-- Witness for C7: adding a group `"a"` to a registry holding group
`"b"` makes `"a"` retrievable, leaves `"b"`'s relative position among the
other keys intact, and the operation is idempotent. -/
theorem C7_registry_mutation_witness :
    ("b" : String) ≠ "a"
    ∧ c7Registry.WF
    ∧ (Template.ErrorManagers c7Registry "a" [c7Manager]).lookup "a"
        = (if ([c7Manager] : List ErrorManager).isEmpty then [] else [c7Manager])
    ∧ (Template.ErrorManagers c7Registry "a" [c7Manager]).keys.filter (fun k => k != "a")
        = c7Registry.keys.filter (fun k => k != "a") :=
  ⟨by decide, rfl,
    (C7_registry_mutation c7Registry "a" "b" [c7Manager] (by decide) rfl).1,
    (C7_registry_mutation c7Registry "a" "b" [c7Manager] (by decide) rfl).2.2.2.2.1⟩

/-! ## Claim C10 -/

theorem heapGet_heapSet_ne (h : MapHeap) (i j : Nat) (m : FuncMap) (hij : i ≠ j) :
    heapGet (heapSet h i m) j = heapGet h j := by
  induction h generalizing i j with
  | nil => rfl
  | cons a h ih =>
    cases i with
    | zero =>
      cases j with
      | zero => exact absurd rfl hij
      | succ j => simp [heapGet, heapSet]
    | succ i =>
      cases j with
      | zero => simp [heapGet, heapSet]
      | succ j =>
        simpa [heapGet, heapSet] using ih i j (fun hh => hij (by rw [hh]))

theorem heapGet_heapSet_self (h : MapHeap) (i : Nat) (m : FuncMap) (hi : i < h.length) :
    heapGet (heapSet h i m) i = m := by
  induction h generalizing i with
  | nil => exact absurd hi (by simp)
  | cons a h ih =>
    cases i with
    | zero => rfl
    | succ i => simpa [heapGet, heapSet] using ih i (by simpa using hi)

theorem heapGet_append_lt (h : MapHeap) (m : FuncMap) (rr : Nat) (hr : rr < h.length) :
    heapGet (h ++ [m]) rr = heapGet h rr := by
  induction h generalizing rr with
  | nil => exact absurd hr (by simp)
  | cons a h ih =>
    cases rr with
    | zero => rfl
    | succ rr => simpa [heapGet] using ih rr (by simpa using hr)

theorem heapGet_append_self (h : MapHeap) (m : FuncMap) :
    heapGet (h ++ [m]) h.length = m := by
  induction h with
  | nil => rfl
  | cons a h ih => simp [heapGet, ih]

theorem length_heapSet (h : MapHeap) (i : Nat) (m : FuncMap) :
    (heapSet h i m).length = h.length := by
  simp [heapSet]

theorem mapGet_mapSet_self (name : String) (e : FuncEntry) (m : FuncMap) :
    mapGet (mapSet name e m) name = some e := by
  induction m with
  | nil => simp [mapSet, mapGet]
  | cons p m ih =>
    rcases p with ⟨k, v⟩
    by_cases h : k = name
    · simp [mapSet, mapGet, h]
    · simp only [mapGet] at ih
      simp [mapSet, mapGet, h, ih]

theorem mapGet_mapSet_other (name other : String) (hne : other ≠ name) (e : FuncEntry)
    (m : FuncMap) :
    mapGet (mapSet name e m) other = mapGet m other := by
  induction m with
  | nil => simp [mapSet, mapGet, Ne.symm hne]
  | cons p m ih =>
    rcases p with ⟨k, v⟩
    simp only [mapGet] at ih
    by_cases h : k = name
    · simp [mapSet, mapGet, h, Ne.symm hne, hne]
    · by_cases hk : k = other <;> simp [mapSet, mapGet, h, hk, hne, ih]

/-- Invariant of the `ExtraFuncs` loop: the caller's map (reference `r`)
is never written; when a replacement map exists it lives at a different
reference and still holds every standard-signature entry of the caller's
map unmodified. -/
theorem extraFuncsLoop_invariant (r : Nat) (names : List String) (h : MapHeap)
    (replaced : Option Nat) (hr : r < h.length)
    (hrep : ∀ rr, replaced = some rr → rr ≠ r ∧ rr < h.length
      ∧ ∀ name e, mapGet (heapGet h r) name = some e → entryStandard e = true →
          mapGet (heapGet h rr) name = some e) :
    heapGet (extraFuncsLoop r names h replaced).1 r = heapGet h r
    ∧ r < (extraFuncsLoop r names h replaced).1.length
    ∧ ∀ rr, (extraFuncsLoop r names h replaced).2 = some rr → rr ≠ r
        ∧ rr < (extraFuncsLoop r names h replaced).1.length
        ∧ ∀ name e, mapGet (heapGet h r) name = some e → entryStandard e = true →
            mapGet (heapGet (extraFuncsLoop r names h replaced).1 rr) name = some e := by
  induction names generalizing h replaced with
  | nil => exact ⟨rfl, hr, fun rr hrr => hrep rr hrr⟩
  | cons name rest ih =>
    cases hfind : mapGet (heapGet h r) name with
    | none => simpa [extraFuncsLoop, hfind] using ih h replaced hr hrep
    | some e =>
      cases hfunc : entryIsFunc e with
      | false => simpa [extraFuncsLoop, hfind, hfunc] using ih h replaced hr hrep
      | true =>
        cases hstd : entryStandard e with
        | true => simpa [extraFuncsLoop, hfind, hfunc, hstd] using ih h replaced hr hrep
        | false =>
          cases hrepc : replaced with
          | some rr =>
            obtain ⟨hrr_ne, hrr_lt, hpres⟩ := hrep rr hrepc
            have hloop : extraFuncsLoop r (name :: rest) h (some rr)
                = extraFuncsLoop r rest
                    (heapSet h rr (mapSet name (wrapEntry e) (heapGet h rr))) (some rr) := by
              simp [extraFuncsLoop, hfind, hfunc, hstd]
            have hgr : heapGet (heapSet h rr (mapSet name (wrapEntry e) (heapGet h rr))) r
                = heapGet h r := heapGet_heapSet_ne h rr r _ hrr_ne
            have hlen : (heapSet h rr (mapSet name (wrapEntry e) (heapGet h rr))).length
                = h.length := length_heapSet h rr _
            have hstep := ih (heapSet h rr (mapSet name (wrapEntry e) (heapGet h rr))) (some rr)
              (by rw [hlen]; exact hr)
              (by
                intro rr' hrr'
                cases hrr'
                refine ⟨hrr_ne, by rw [hlen]; exact hrr_lt, ?_⟩
                intro name' e' hm' hstd'
                have hne' : name' ≠ name := by
                  intro hnn
                  rw [hgr] at hm'
                  rw [hnn, hfind] at hm'
                  cases hm'
                  rw [hstd'] at hstd
                  cases hstd
                rw [heapGet_heapSet_self h rr _ hrr_lt,
                  mapGet_mapSet_other name name' hne' (wrapEntry e) (heapGet h rr)]
                rw [hgr] at hm'
                exact hpres name' e' hm' hstd')
            rw [hloop]
            refine ⟨hstep.1.trans hgr, hstep.2.1, ?_⟩
            intro rr' hrr'
            obtain ⟨h1, h2, h3⟩ := hstep.2.2 rr' hrr'
            refine ⟨h1, h2, ?_⟩
            intro name' e' hm' hstd'
            exact h3 name' e' (by rw [hgr]; exact hm') hstd'
          | none =>
            have hloop : extraFuncsLoop r (name :: rest) h none
                = extraFuncsLoop r rest
                    (heapSet (h ++ [heapGet h r]) h.length
                      (mapSet name (wrapEntry e) (heapGet (h ++ [heapGet h r]) h.length)))
                    (some h.length) := by
              simp [extraFuncsLoop, hfind, hfunc, hstd, heapAlloc]
            have hrne : h.length ≠ r := Nat.ne_of_gt hr
            have happ : heapGet (h ++ [heapGet h r]) r = heapGet h r :=
              heapGet_append_lt h _ r hr
            have hself : heapGet (h ++ [heapGet h r]) h.length = heapGet h r :=
              heapGet_append_self h _
            have hlen : (heapSet (h ++ [heapGet h r]) h.length
                (mapSet name (wrapEntry e) (heapGet (h ++ [heapGet h r]) h.length))).length
                = h.length + 1 := by
              rw [length_heapSet]; simp
            have hlenlt : h.length < (h ++ [heapGet h r]).length := by simp
            have hgr : heapGet (heapSet (h ++ [heapGet h r]) h.length
                (mapSet name (wrapEntry e) (heapGet (h ++ [heapGet h r]) h.length))) r
                = heapGet h r := by
              rw [heapGet_heapSet_ne _ _ _ _ hrne, happ]
            have hstep := ih (heapSet (h ++ [heapGet h r]) h.length
                (mapSet name (wrapEntry e) (heapGet (h ++ [heapGet h r]) h.length)))
              (some h.length)
              (by rw [hlen]; exact Nat.lt_succ_of_lt hr)
              (by
                intro rr' hrr'
                cases hrr'
                refine ⟨hrne, by rw [hlen]; exact Nat.lt_succ_self _, ?_⟩
                intro name' e' hm' hstd'
                have hne' : name' ≠ name := by
                  intro hnn
                  rw [hgr] at hm'
                  rw [hnn, hfind] at hm'
                  cases hm'
                  rw [hstd'] at hstd
                  cases hstd
                rw [heapGet_heapSet_self _ _ _ hlenlt,
                  mapGet_mapSet_other name name' hne' (wrapEntry e) _, hself]
                rw [hgr] at hm'
                exact hm')
            rw [hloop]
            refine ⟨hstep.1.trans hgr, hstep.2.1, ?_⟩
            intro rr' hrr'
            obtain ⟨h1, h2, h3⟩ := hstep.2.2 rr' hrr'
            refine ⟨h1, h2, ?_⟩
            intro name' e' hm' hstd'
            exact h3 name' e' (by rw [hgr]; exact hm') hstd'

/-- C10: neither `ExtraFuncs` nor `SafeFuncs` ever mutates the
caller-supplied function map — after the call the map at the caller's
reference is exactly what it was — and every entry already matching the
standard one-value or value-plus-error signature is found unmodified in
the map that gets registered (whether that is the caller's map itself, or
the freshly duplicated one when some entry needed wrapping). -/
theorem C10_funcmaps_not_mutated (h : MapHeap) (r : Nat) (hr : r < h.length) :
    heapGet (Template.ExtraFuncs h r).1 r = heapGet h r
    ∧ (∀ name e, mapGet (heapGet h r) name = some e → entryStandard e = true →
        mapGet (heapGet (Template.ExtraFuncs h r).1 (Template.ExtraFuncs h r).2) name = some e)
    ∧ heapGet (Template.SafeFuncs h r).1 r = heapGet h r
    ∧ (∀ name e, mapGet (heapGet h r) name = some e → entryStandard e = true →
        mapGet (heapGet (Template.SafeFuncs h r).1 (Template.SafeFuncs h r).2) name = some e) := by
  have base := extraFuncsLoop_invariant r ((heapGet h r).map (fun p => p.1)) h none hr
    (fun rr hrr => by cases hrr)
  have hmain : heapGet (Template.ExtraFuncs h r).1 r = heapGet h r
      ∧ (∀ name e, mapGet (heapGet h r) name = some e → entryStandard e = true →
          mapGet (heapGet (Template.ExtraFuncs h r).1 (Template.ExtraFuncs h r).2) name
            = some e) := by
    unfold Template.ExtraFuncs
    cases hout : (extraFuncsLoop r ((heapGet h r).map (fun p => p.1)) h none).2 with
    | none =>
      refine ⟨by simp only [hout]; exact base.1, ?_⟩
      intro name e hm hstd
      simp only [hout]
      rw [base.1]
      exact hm
    | some rr =>
      obtain ⟨h1, h2, h3⟩ := base.2.2 rr hout
      refine ⟨by simp only [hout]; exact base.1, ?_⟩
      intro name e hm hstd
      simp only [hout]
      exact h3 name e hm hstd
  exact ⟨hmain.1, hmain.2, hmain.1, hmain.2⟩

/-- A heap holding one function map with a non-standard entry `"f"` (no
return values) and a standard entry `"g"` (one non-error return). -/
def c10Heap : MapHeap :=
  [[("f", FuncEntry.original ⟨[]⟩), ("g", FuncEntry.original ⟨[false]⟩)]]

/-- Witness for C10: after `ExtraFuncs`, the caller's map is unchanged and
the standard entry `"g"` is registered unmodified. -/
theorem C10_funcmaps_not_mutated_witness :
    0 < c10Heap.length
    ∧ heapGet (Template.ExtraFuncs c10Heap 0).1 0 = heapGet c10Heap 0
    ∧ mapGet (heapGet (Template.ExtraFuncs c10Heap 0).1 (Template.ExtraFuncs c10Heap 0).2) "g"
        = some (FuncEntry.original ⟨[false]⟩) :=
  ⟨by decide, (C10_funcmaps_not_mutated c10Heap 0 (by decide)).1,
    (C10_funcmaps_not_mutated c10Heap 0 (by decide)).2.1 "g"
      (FuncEntry.original ⟨[false]⟩) rfl rfl⟩

end TemplateProof
